import Mathlib

/-!
Shallow embedding of the core of the `raytracer` repository
(`src/linalg.rs`, `src/geometry.rs`, `src/ray.rs`).

Modelling conventions:
* Rust `f64` values are modelled as exact rationals (`ℚ`); claims about
  floating-point quantities are read as statements about the exact
  real-number algorithm.
* `f64::sqrt` is not rational, so every definition that calls it takes an
  explicit square-root oracle `sq : ℚ → ℚ`; theorems assume the oracle is
  correct only at the arguments actually used, and concrete witnesses use
  inputs whose square roots are rational (via `Rat.sqrt`).
* `f64::INFINITY` (used only as the initial nearest-hit distance) is
  modelled as `⊤` in `WithTop ℚ`.
* Rust panics (out-of-bounds `Vec` indexing in `first_intersection`) are
  modelled as an outer `Option` layer: `none` means the call panics.
* The thread-local random source is modelled as an explicit oracle of
  pre-drawn values (unit vectors for `random_unit_vector`, rationals in
  `[0,1)` for `rng.gen::<f64>()`), indexed so that every draw site reads
  a distinct position.
-/

namespace RayTracer

/-- `Vec3D(pub f64, pub f64, pub f64)` from `src/linalg.rs`; the fields
`x`, `y`, `z` are the Rust tuple components `.0`, `.1`, `.2`. -/
structure Vec3D where
  x : ℚ
  y : ℚ
  z : ℚ
deriving DecidableEq

instance : Add Vec3D :=
  ⟨fun a b => ⟨a.x + b.x, a.y + b.y, a.z + b.z⟩⟩

instance : Sub Vec3D :=
  ⟨fun a b => ⟨a.x - b.x, a.y - b.y, a.z - b.z⟩⟩

instance : Mul Vec3D :=
  ⟨fun a b => ⟨a.x * b.x, a.y * b.y, a.z * b.z⟩⟩

instance : Neg Vec3D :=
  ⟨fun a => ⟨-a.x, -a.y, -a.z⟩⟩

instance : HMul ℚ Vec3D Vec3D :=
  ⟨fun t v => ⟨t * v.x, t * v.y, t * v.z⟩⟩

theorem Vec3D.add_def (a b : Vec3D) : a + b = ⟨a.x + b.x, a.y + b.y, a.z + b.z⟩ := rfl

theorem Vec3D.sub_def (a b : Vec3D) : a - b = ⟨a.x - b.x, a.y - b.y, a.z - b.z⟩ := rfl

theorem Vec3D.mul_def (a b : Vec3D) : a * b = ⟨a.x * b.x, a.y * b.y, a.z * b.z⟩ := rfl

theorem Vec3D.neg_def (a : Vec3D) : -a = ⟨-a.x, -a.y, -a.z⟩ := rfl

theorem Vec3D.smul_def (t : ℚ) (v : Vec3D) : t * v = ⟨t * v.x, t * v.y, t * v.z⟩ := rfl

/-- `dot` from `src/linalg.rs`: componentwise product, then sum. -/
def dot (a b : Vec3D) : ℚ :=
  a.x * b.x + a.y * b.y + a.z * b.z

/-- `Vec3D::length_squared` from `src/linalg.rs`. -/
def Vec3D.length_squared (v : Vec3D) : ℚ :=
  v.x * v.x + v.y * v.y + v.z * v.z

/-- `Vec3D::normalize` from `src/linalg.rs`: divide each component by `norm`. -/
def Vec3D.normalize (v : Vec3D) (norm : ℚ) : Vec3D :=
  ⟨v.x / norm, v.y / norm, v.z / norm⟩

/-- `Vec3D::length` from `src/linalg.rs`: `length_squared().sqrt()`,
with the square root supplied by the oracle `sq`. -/
def Vec3D.length (sq : ℚ → ℚ) (v : Vec3D) : ℚ :=
  sq v.length_squared

/-- `Vec3D::l2_normalize` from `src/linalg.rs`. -/
def Vec3D.l2_normalize (sq : ℚ → ℚ) (v : Vec3D) : Vec3D :=
  v.normalize (v.length sq)

/-- `Ray` from `src/ray.rs` (same layout as the copy in `src/geometry.rs`). -/
structure Ray where
  origin : Vec3D
  direction : Vec3D
deriving DecidableEq

/-- `Ray::at` from `src/ray.rs`: `origin + t * direction`. -/
def Ray.at (r : Ray) (t : ℚ) : Vec3D :=
  r.origin + t * r.direction

/-- `Intersection` from `src/geometry.rs`. -/
structure Intersection where
  point : Vec3D
  distance : ℚ
  local_normal : Vec3D
  inside : Bool
deriving DecidableEq

/-- Modelled from the spec: `Surface` lives in the repository's
`materials.rs`, which is not under `src/`; §3 of the spec describes it as a
closed variant over Diffuse, Reflective, FuzzyReflective(fuzz) and
Refractive(index_of_refraction). -/
inductive Surface where
  | Diffuse : Surface
  | Reflective : Surface
  | FuzzyReflective : ℚ → Surface
  | Refractive : ℚ → Surface
deriving DecidableEq

/-- Modelled from the spec: the RGB color triple of the repository's
`colors.rs` (not under `src/`); a 3-channel floating-point color. -/
structure RGB where
  r : ℚ
  g : ℚ
  b : ℚ
deriving DecidableEq

/-- Modelled from the spec: the `rgb` constructor of `colors.rs`. -/
def rgb (r g b : ℚ) : RGB :=
  ⟨r, g, b⟩

/-- Modelled from the spec: `RGB::to_vec3d` of `colors.rs`, the evident
triple-to-triple conversion. -/
def RGB.to_vec3d (c : RGB) : Vec3D :=
  ⟨c.r, c.g, c.b⟩

/-- Modelled from the spec: `vec_to_rgb` of `colors.rs`, the evident
triple-to-triple conversion. -/
def vec_to_rgb (v : Vec3D) : RGB :=
  ⟨v.x, v.y, v.z⟩

/-- Modelled from the spec: `Material` lives in the repository's
`materials.rs` (not under `src/`); §3 of the spec: an albedo color plus a
`Surface`. -/
structure Material where
  color : RGB
  surface : Surface
deriving DecidableEq

/-- `Sphere` from `src/geometry.rs`. -/
structure Sphere where
  origin : Vec3D
  radius : ℚ
  material : Material
deriving DecidableEq

/-- `Sphere::surface_normal` from `src/geometry.rs`:
`(point - self.origin).l2_normalize()`. -/
def Sphere.surface_normal (sq : ℚ → ℚ) (s : Sphere) (point : Vec3D) : Vec3D :=
  Vec3D.l2_normalize sq (point - s.origin)

/-- The local `a` of `Sphere::intersects`: `dot(direction, direction)`. -/
def sphereA (s : Sphere) (ray : Ray) : ℚ :=
  dot ray.direction ray.direction

/-- The local `h` of `Sphere::intersects`: `dot(origin - center, direction)`. -/
def sphereH (s : Sphere) (ray : Ray) : ℚ :=
  dot (ray.origin - s.origin) ray.direction

/-- The local `c` of `Sphere::intersects`:
`dot(origin - center, origin - center) - radius²`. -/
def sphereC (s : Sphere) (ray : Ray) : ℚ :=
  dot (ray.origin - s.origin) (ray.origin - s.origin) - s.radius * s.radius

/-- The local `discriminant` of `Sphere::intersects`: `h*h - a*c`. -/
def sphereDisc (s : Sphere) (ray : Ray) : ℚ :=
  sphereH s ray * sphereH s ray - sphereA s ray * sphereC s ray

/-- The local `t0` of `Sphere::intersects`: `(-h - sqrt(disc)) / a`. -/
def sphereT0 (sq : ℚ → ℚ) (s : Sphere) (ray : Ray) : ℚ :=
  (-sphereH s ray - sq (sphereDisc s ray)) / sphereA s ray

/-- The local `t1` of `Sphere::intersects`: `(-h + sqrt(disc)) / a`. -/
def sphereT1 (sq : ℚ → ℚ) (s : Sphere) (ray : Ray) : ℚ :=
  (-sphereH s ray + sq (sphereDisc s ray)) / sphereA s ray

/-- The local `t` of `Sphere::intersects`:
`if t0 >= 0.01 { t0 } else { t1 }`. -/
def sphereHitT (sq : ℚ → ℚ) (s : Sphere) (ray : Ray) : ℚ :=
  if 1/100 ≤ sphereT0 sq s ray then sphereT0 sq s ray else sphereT1 sq s ray

/-- `Sphere::intersects` from `src/geometry.rs` (the quadratic-formula
ray–sphere test, epsilon 0.01, normal flipped to oppose the ray). -/
def Sphere.intersects (sq : ℚ → ℚ) (s : Sphere) (ray : Ray) : Option Intersection :=
  if sphereDisc s ray < 0 then none
  else if sphereT0 sq s ray < 1/100 ∧ sphereT1 sq s ray < 1/100 then none
  else
    let t := sphereHitT sq s ray
    let point := ray.at t
    let surface_normal := s.surface_normal sq point
    let inside : Bool := if 0 < dot ray.direction surface_normal then true else false
    let local_normal := if inside then -surface_normal else surface_normal
    let distance := Vec3D.length sq (point - ray.origin)
    some ⟨point, distance, local_normal, inside⟩

/-- `Intersectable` from `src/geometry.rs`: currently only spheres. -/
inductive Intersectable where
  | Sphere : RayTracer.Sphere → Intersectable
deriving DecidableEq

/-- `Intersectable::intersects` from `src/geometry.rs`: dispatch to the sphere. -/
def Intersectable.intersects (sq : ℚ → ℚ) (w : Intersectable) (ray : Ray) : Option Intersection :=
  match w with
  | .Sphere s => s.intersects sq ray

/-- `Intersectable::material` from `src/geometry.rs`: dispatch to the sphere. -/
def Intersectable.material (w : Intersectable) : Material :=
  match w with
  | .Sphere s => s.material

/-- The mutable loop state of `first_intersection` from `src/geometry.rs`:
`closest_distance` starts at `INFINITY` (modelled as `⊤`). -/
structure FIState where
  closest_distance : WithTop ℚ
  closest_intersectable : Intersectable
  closest_intersection : Option Intersection

/-- One iteration of the `first_intersection` loop: update the running
nearest hit when the current result is `Some` and strictly closer. -/
def fiStep (st : FIState) (o : Option Intersection) (x : Intersectable) : FIState :=
  match o with
  | some intersection =>
      if (intersection.distance : WithTop ℚ) < st.closest_distance then
        ⟨(intersection.distance : WithTop ℚ), x, some intersection⟩
      else st
  | none => st

/-- The `for i in 0..num_objects` loop of `first_intersection`, reading
`intersections[i]` and `intersectables[i]` in lockstep; `none` models the
panic when `intersections` is shorter than `intersectables`. -/
def fiLoop : List (Option Intersection) → List Intersectable → FIState → Option FIState
  | _, [], st => some st
  | [], _ :: _, _ => none
  | o :: os, x :: xs, st => fiLoop os xs (fiStep st o x)

/-- `first_intersection` from `src/geometry.rs`. The outer `Option` models
panics: the function indexes `intersectables[0]` and `intersections[0]`
unconditionally, so it panics on empty input. The inner
`Option (Intersection × Intersectable)` is the Rust return value, with the
final `closest_intersection?` early-return mapped over the stored state. -/
def first_intersection (intersections : List (Option Intersection))
    (intersectables : List Intersectable) : Option (Option (Intersection × Intersectable)) :=
  match intersectables, intersections with
  | x0 :: _, o0 :: _ =>
      match fiLoop intersections intersectables ⟨⊤, x0, o0⟩ with
      | none => none
      | some st =>
          if st.closest_distance = ⊤ then some none
          else some (st.closest_intersection.map fun i => (i, st.closest_intersectable))
  | _, _ => none

/-- Modelled from the spec: `find_intersections` lives in the repository's
`geometry.rs` region not included under `src/` (only its caller `trace` and
the nearest-hit helper `first_intersection` are). Per §4.2 it tests every
primitive independently and resolves the nearest hit, returning `None` when
no primitive is hit — in particular on an empty world. On nonempty worlds
the per-primitive results and the world have equal length, so the
`first_intersection` of `src/geometry.rs` cannot panic and its value is
used directly. -/
def find_intersections (sq : ℚ → ℚ) (ray : Ray) (world : List Intersectable) :
    List (Option Intersection) × Option (Intersection × Intersectable) :=
  let ints := world.map fun w => w.intersects sq ray
  (ints,
    match first_intersection ints world with
    | some r => r
    | none => none)

/-- `diffuse_bounce` from `src/ray.rs`: bounce along
`local_normal + random_unit_vector()`; the drawn random unit vector is
supplied as `uvec`. -/
def diffuse_bounce (uvec : Vec3D) (intersection : Intersection)
    (intersectable : Intersectable) : Ray :=
  ⟨intersection.point, intersection.local_normal + uvec⟩

/-- `reflect` from `src/ray.rs`: mirror reflection
`d - 2·(d·n)·n` about the local normal, anchored at the hit point. -/
def reflect (intersection : Intersection) (intersectable : Intersectable)
    (ray : Ray) : Ray :=
  ⟨intersection.point,
    ray.direction -
      (2 * dot ray.direction intersection.local_normal) * intersection.local_normal⟩

/-- The local `fuzz` of `fuzzy_reflect`: `0.0` unless the material's surface
is `FuzzyReflective(surface_fuzz)`. -/
def fuzzOf (mat : Material) : ℚ :=
  match mat.surface with
  | .FuzzyReflective surface_fuzz => surface_fuzz
  | _ => 0

/-- `fuzzy_reflect` from `src/ray.rs`: mirror reflection perturbed by
`fuzz * random_unit_vector()`; the drawn random unit vector is `uvec`. -/
def fuzzy_reflect (uvec : Vec3D) (intersection : Intersection)
    (intersectable : Intersectable) (ray : Ray) : Ray :=
  ⟨intersection.point,
    (ray.direction -
        (2 * dot ray.direction intersection.local_normal) * intersection.local_normal) +
      fuzzOf intersectable.material * uvec⟩

/-- `schlick` from `src/ray.rs`: the Schlick reflectance approximation. -/
def schlick (cos_theta : ℚ) (eta : ℚ) : ℚ :=
  ((1 - eta) / (1 + eta)) * ((1 - eta) / (1 + eta)) +
    (1 - ((1 - eta) / (1 + eta)) * ((1 - eta) / (1 + eta))) * (1 - cos_theta) ^ 5

/-- The local `material_index` of `refract`: `1.0` unless the surface is
`Refractive(index)`. -/
def refractMaterialIndex (mat : Material) : ℚ :=
  match mat.surface with
  | .Refractive index => index
  | _ => 1

/-- The local `index_ratio` of `refract`: the material's index when the
intersection is inside the primitive, `1/index` otherwise. -/
def refractEta (intersection : Intersection) (mat : Material) : ℚ :=
  if intersection.inside then refractMaterialIndex mat
  else 1 / refractMaterialIndex mat

/-- The local `cos_theta1` of `refract`:
`dot(-normalize(direction), local_normal).min(1.0)`. -/
def refractCosTheta1 (sq : ℚ → ℚ) (intersection : Intersection) (ray : Ray) : ℚ :=
  min (dot (-(Vec3D.l2_normalize sq ray.direction)) intersection.local_normal) 1

/-- The local `sin_theta1` of `refract`: `sqrt(1 - cos_theta1²)`. -/
def refractSinTheta1 (sq : ℚ → ℚ) (intersection : Intersection) (ray : Ray) : ℚ :=
  sq (1 - refractCosTheta1 sq intersection ray * refractCosTheta1 sq intersection ray)

/-- `refract` from `src/ray.rs` (dielectric scattering). The uniform random
number `rng.gen()` is supplied as `reflect_check`. -/
def refract (sq : ℚ → ℚ) (reflect_check : ℚ) (intersection : Intersection)
    (intersectable : Intersectable) (ray : Ray) : Ray :=
  let index_ratio := refractEta intersection intersectable.material
  let r1 := Vec3D.l2_normalize sq ray.direction
  let cos_theta1 := refractCosTheta1 sq intersection ray
  let sin_theta1 := refractSinTheta1 sq intersection ray
  if 1 < index_ratio * sin_theta1 then reflect intersection intersectable ray
  else if reflect_check < schlick cos_theta1 index_ratio then
    reflect intersection intersectable ray
  else
    let r2_per := index_ratio * (r1 + cos_theta1 * intersection.local_normal)
    let r2_par := -(sq (1 - r2_per.length_squared)) * intersection.local_normal
    ⟨intersection.point, r2_per + r2_par⟩

/-- `trace` from `src/ray.rs`: the recursive radiance estimator. The random
source is modelled by the oracles `u` (results of `random_unit_vector`) and
`g` (results of `rng.gen::<f64>()`), read at the current depth — each
recursion level has a distinct depth, so every draw site reads a fresh
value. -/
def trace (sq : ℚ → ℚ) (u : ℕ → Vec3D) (g : ℕ → ℚ)
    (world : List Intersectable) : Ray → ℕ → RGB
  | _, 0 => rgb 0 0 0
  | ray, depth + 1 =>
    match (find_intersections sq ray world).2 with
    | some (intersection, intersectable) =>
        let material := intersectable.material
        let material_color := material.color.to_vec3d
        let traced_color : Vec3D :=
          match material.surface with
          | .Diffuse =>
              (trace sq u g world (diffuse_bounce (u (depth + 1)) intersection intersectable)
                depth).to_vec3d
          | .Reflective =>
              (trace sq u g world (reflect intersection intersectable ray) depth).to_vec3d
          | .FuzzyReflective _ =>
              let reflected := fuzzy_reflect (u (depth + 1)) intersection intersectable ray
              if 0 < dot reflected.direction intersection.local_normal then
                (trace sq u g world reflected depth).to_vec3d
              else ⟨0, 0, 0⟩
          | .Refractive _ =>
              (trace sq u g world
                (refract sq (g (depth + 1)) intersection intersectable ray) depth).to_vec3d
        vec_to_rgb (material_color * traced_color)
    | none =>
        let ray_direction := Vec3D.l2_normalize sq ray.direction
        let height := 1/2 * (ray_direction.y + 1)
        rgb ((1 - height) + height * (1/2)) ((1 - height) + height * (7/10)) 1

/-- The per-row random source of `render` (`rand::thread_rng()`), modelled
as oracles of pre-drawn values indexed by row, column and sample: `rowJit`
and `colJit` are the two `rng.gen::<f64>()` jitter draws, and `traceUnit` /
`traceDraw` feed the random draws inside `trace` (extra depth index). -/
structure RenderRand where
  rowJit : ℕ → ℕ → ℕ → ℚ
  colJit : ℕ → ℕ → ℕ → ℚ
  traceUnit : ℕ → ℕ → ℕ → ℕ → Vec3D
  traceDraw : ℕ → ℕ → ℕ → ℕ → ℚ

/-- The jitter formula of `render` in `src/ray.rs`:
`(index as f64 + 0.5 + rand) / (extent as f64)`, used for both
`row_frac` and `col_frac`. -/
def jitter_frac (index : ℕ) (extent : ℕ) (rand : ℚ) : ℚ :=
  ((index : ℚ) + 1/2 + rand) / (extent : ℚ)

/-- Observable actions of `render`: calls to the external camera's
`prime_ray`, progress-counter updates, and the final `write_ppm` call. -/
inductive Effect where
  | primeRay : ℚ → ℚ → Effect
  | progress : Effect
  | writePPM : List (List ℚ) → ℕ → ℕ → Effect
deriving DecidableEq

/-- Discriminator for the `write_ppm` effect. -/
def Effect.isWritePPM : Effect → Bool
  | .writePPM _ _ _ => true
  | _ => false

/-- One sample of one pixel in `render`: prime a camera ray at the jittered
fractions and trace it at depth budget 50. -/
def renderSampleColor (sq : ℚ → ℚ) (cam : ℚ → ℚ → Ray) (world : List Intersectable)
    (rr : RenderRand) (rows cols row col sample : ℕ) : RGB :=
  trace sq (rr.traceUnit row col sample) (rr.traceDraw row col sample) world
    (cam (jitter_frac row rows (rr.rowJit row col sample))
      (jitter_frac col cols (rr.colJit row col sample))) 50

/-- The accumulated `r` channel of one pixel of `render`: the sample loop
runs `for sample in 0..samples_per_pixel as usize`, i.e. `⌊spp⌋` times
(saturating at 0). -/
def pixelSumR (sq : ℚ → ℚ) (cam : ℚ → ℚ → Ray) (world : List Intersectable)
    (rr : RenderRand) (rows cols row col : ℕ) (spp : ℚ) : ℚ :=
  (List.range ⌊spp⌋.toNat).foldl
    (fun a sample => a + (renderSampleColor sq cam world rr rows cols row col sample).r) 0

/-- The accumulated `g` channel of one pixel of `render`. -/
def pixelSumG (sq : ℚ → ℚ) (cam : ℚ → ℚ → Ray) (world : List Intersectable)
    (rr : RenderRand) (rows cols row col : ℕ) (spp : ℚ) : ℚ :=
  (List.range ⌊spp⌋.toNat).foldl
    (fun a sample => a + (renderSampleColor sq cam world rr rows cols row col sample).g) 0

/-- The accumulated `b` channel of one pixel of `render`. -/
def pixelSumB (sq : ℚ → ℚ) (cam : ℚ → ℚ → Ray) (world : List Intersectable)
    (rr : RenderRand) (rows cols row col : ℕ) (spp : ℚ) : ℚ :=
  (List.range ⌊spp⌋.toNat).foldl
    (fun a sample => a + (renderSampleColor sq cam world rr rows cols row col sample).b) 0

/-- One pixel of `render`: the three accumulated channels, each divided by
the floating-point `samples_per_pixel` value itself (written into the
pixel's 3-entry buffer cell). -/
def renderPixelColor (sq : ℚ → ℚ) (cam : ℚ → ℚ → Ray) (world : List Intersectable)
    (rr : RenderRand) (rows cols row col : ℕ) (spp : ℚ) : List ℚ :=
  [pixelSumR sq cam world rr rows cols row col spp / spp,
    pixelSumG sq cam world rr rows cols row col spp / spp,
    pixelSumB sq cam world rr rows cols row col spp / spp]

/-- The `prime_ray` calls one pixel of `render` makes, in sample order. -/
def renderPixelEffects (rr : RenderRand) (rows cols row col : ℕ) (spp : ℚ) : List Effect :=
  (List.range ⌊spp⌋.toNat).map fun sample =>
    .primeRay (jitter_frac row rows (rr.rowJit row col sample))
      (jitter_frac col cols (rr.colJit row col sample))

/-- One row task of `render`: the row's `cols` pixel cells. -/
def renderRowPixels (sq : ℚ → ℚ) (cam : ℚ → ℚ → Ray) (world : List Intersectable)
    (rr : RenderRand) (rows cols row : ℕ) (spp : ℚ) : List (List ℚ) :=
  (List.range cols).map fun col =>
    renderPixelColor sq cam world rr rows cols row col spp

/-- The observable actions of one row task of `render`, in program order:
the progress-counter update fires at the start of the column iteration with
`col == cols - 1`, before that column's samples. -/
def renderRowEffects (rr : RenderRand) (rows cols row : ℕ) (spp : ℚ) : List Effect :=
  (List.range cols).flatMap fun col =>
    (if col = cols - 1 then [Effect.progress] else []) ++
      renderPixelEffects rr rows cols row col spp

/-- The completed row-major `rows*cols` frame buffer of `render`. -/
def renderImage (sq : ℚ → ℚ) (cam : ℚ → ℚ → Ray) (world : List Intersectable)
    (rr : RenderRand) (rows cols : ℕ) (spp : ℚ) : List (List ℚ) :=
  (List.range rows).flatMap fun row =>
    renderRowPixels sq cam world rr rows cols row spp

/-- `render` from `src/ray.rs`, with the row tasks laid out sequentially in
row order (the rayon schedule only permutes task order; the buffer cells
and per-task effects are schedule-independent). Its Rust return type is
`()`: the frame buffer is not returned but handed to `write_ppm`, which
`render` itself invokes as its final effect. -/
def render (sq : ℚ → ℚ) (cam : ℚ → ℚ → Ray) (world : List Intersectable)
    (rows cols : ℕ) (spp : ℚ) (rr : RenderRand) : Unit × List Effect :=
  ((),
    ((List.range rows).flatMap fun row => renderRowEffects rr rows cols row spp) ++
      [Effect.writePPM (renderImage sq cam world rr rows cols spp) rows cols])

/-- Per-task state of the progress-counter protocol of `render`
(`src/ray.rs` line 186): `loaded t` records the value task `t`'s
`completed_rows.load(..)` returned, if the load already executed. -/
structure CounterState (n : ℕ) where
  counter : ℕ
  loaded : Fin n → Option ℕ

/-- One scheduler step of the progress-counter protocol: each row task
executes `completed_rows.store(completed_rows.load(..) + 1, ..)`, i.e. a
separate atomic load followed by a separate atomic store of `loaded + 1` —
not a single read-modify-write. Scheduling task `t` runs its next
pending operation. -/
def counterStep {n : ℕ} (st : CounterState n) (t : Fin n) : CounterState n :=
  match st.loaded t with
  | none => ⟨st.counter, fun s => if s = t then some st.counter else st.loaded s⟩
  | some v => ⟨v + 1, st.loaded⟩

/-- Run the progress-counter protocol under an interleaving `sched` of the
row tasks' operations, from counter 0. -/
def counterRun (n : ℕ) (sched : List (Fin n)) : CounterState n :=
  sched.foldl counterStep ⟨0, fun _ => none⟩

/-- Modelled from the spec: the atomic read-modify-write increment
(`fetch_add`) the spec prescribes for the progress counter; each scheduled
increment is a single indivisible step. -/
def fetchAddRun (n : ℕ) (sched : List (Fin n)) : ℕ :=
  sched.foldl (fun c _ => c + 1) 0

theorem dot_comm (a b : Vec3D) : dot a b = dot b a := by
  unfold dot
  ring

theorem dot_self_nonneg (v : Vec3D) : 0 ≤ dot v v := by
  have hx := mul_self_nonneg v.x
  have hy := mul_self_nonneg v.y
  have hz := mul_self_nonneg v.z
  unfold dot
  linarith

theorem dot_self_pos (v : Vec3D) (h : v ≠ ⟨0, 0, 0⟩) : 0 < dot v v := by
  rcases lt_or_eq_of_le (dot_self_nonneg v) with h' | h'
  · exact h'
  · exfalso
    have hx0 := mul_self_nonneg v.x
    have hy0 := mul_self_nonneg v.y
    have hz0 := mul_self_nonneg v.z
    unfold dot at h'
    have hx : v.x = 0 := by nlinarith
    have hy : v.y = 0 := by nlinarith
    have hz : v.z = 0 := by nlinarith
    apply h
    cases v with
    | mk a b c =>
      simp only at hx hy hz
      rw [hx, hy, hz]

theorem dot_self_eq_length_squared (v : Vec3D) : dot v v = v.length_squared := by
  unfold dot Vec3D.length_squared
  ring

/-- C1 (amended: depth budget `d ≥ 1`; at `d = 0` the tracer returns black
before consulting the world): on a world with zero primitives, `trace`
returns exactly the background gradient computed from the normalized
vertical direction component, independent of the remaining depth. -/
theorem trace_empty_world_background (sq : ℚ → ℚ) (u : ℕ → Vec3D) (g : ℕ → ℚ)
    (ray : Ray) (depth : ℕ) :
    trace sq u g [] ray (depth + 1) =
      rgb ((1 - 1/2 * ((Vec3D.l2_normalize sq ray.direction).y + 1)) +
            1/2 * ((Vec3D.l2_normalize sq ray.direction).y + 1) * (1/2))
        ((1 - 1/2 * ((Vec3D.l2_normalize sq ray.direction).y + 1)) +
            1/2 * ((Vec3D.l2_normalize sq ray.direction).y + 1) * (7/10))
        1 := by
  rfl

/-- C1 counterexample: at depth budget 0 the tracer returns black
(`rgb 0 0 0`), not the background gradient, which for the same ray (unit
direction `(0,0,1)`, so normalized vertical component 0) is
`rgb (3/4) (17/20) 1` at every depth ≥ 1; so the result is neither the
background nor independent of the depth on the range d ≥ 0. -/
theorem trace_depth_zero_black :
    trace Rat.sqrt (fun _ => ⟨0, 0, 0⟩) (fun _ => 0) [] ⟨⟨0, 0, 0⟩, ⟨0, 0, 1⟩⟩ 0 = rgb 0 0 0 ∧
    trace Rat.sqrt (fun _ => ⟨0, 0, 0⟩) (fun _ => 0) [] ⟨⟨0, 0, 0⟩, ⟨0, 0, 1⟩⟩ 1 =
      rgb (3/4) (17/20) 1 ∧
    rgb 0 0 0 ≠ rgb (3/4) (17/20) 1 := by
  refine ⟨rfl, ?_, ?_⟩
  · norm_num [trace, find_intersections, first_intersection, Vec3D.l2_normalize,
      Vec3D.length, Vec3D.length_squared, Vec3D.normalize, Rat.sqrt, rgb]
  · norm_num [rgb, RGB.mk.injEq]

/-- C5: in `refract`, the total-internal-reflection branch is the guard
`index_ratio * sin_theta1 > 1` and forces a mirror reflection for every
random draw; at normal incidence (`cos_theta1 = 1`, so `sin_theta1 = 0`)
with `index_ratio < 1` it never fires; and with `index_ratio > 1` it fires
as soon as `sin_theta1 > 1 / index_ratio`. -/
theorem refract_total_internal_reflection (sq : ℚ → ℚ) (intersection : Intersection)
    (w : Intersectable) (ray : Ray) :
    (1 < refractEta intersection w.material * refractSinTheta1 sq intersection ray →
      ∀ reflect_check : ℚ,
        refract sq reflect_check intersection w ray = reflect intersection w ray) ∧
    (refractCosTheta1 sq intersection ray = 1 → sq 0 = 0 →
      refractEta intersection w.material < 1 →
      ¬ 1 < refractEta intersection w.material * refractSinTheta1 sq intersection ray) ∧
    (1 < refractEta intersection w.material →
      1 / refractEta intersection w.material < refractSinTheta1 sq intersection ray →
      1 < refractEta intersection w.material * refractSinTheta1 sq intersection ray) := by
  refine ⟨?_, ?_, ?_⟩
  · intro h reflect_check
    simp only [refract]
    rw [if_pos h]
  · intro hcos hsq0 _
    unfold refractSinTheta1
    rw [hcos]
    norm_num [hsq0]
  · intro h1 h2
    have h0 : (0 : ℚ) < refractEta intersection w.material := lt_trans zero_lt_one h1
    have key := mul_lt_mul_of_pos_left h2 h0
    rwa [mul_one_div, div_self (ne_of_gt h0)] at key

/-- C5 witness: a configuration in total internal reflection (ray direction
`(0,0,1)`, local normal `(1,0,0)`, inside a refractive material of index
3/2, so `index_ratio = 3/2`, `cos_theta1 = 0`, `sin_theta1 = 1`): the guard
holds and `refract` mirror-reflects. -/
theorem refract_tir_witness :
    1 < refractEta ⟨⟨0, 0, 0⟩, 1, ⟨1, 0, 0⟩, true⟩
          (Intersectable.Sphere ⟨⟨0, 0, 0⟩, 1, ⟨rgb 1 1 1, .Refractive (3/2)⟩⟩).material *
        refractSinTheta1 Rat.sqrt ⟨⟨0, 0, 0⟩, 1, ⟨1, 0, 0⟩, true⟩ ⟨⟨0, 0, 0⟩, ⟨0, 0, 1⟩⟩ ∧
    refract Rat.sqrt 0 ⟨⟨0, 0, 0⟩, 1, ⟨1, 0, 0⟩, true⟩
        (Intersectable.Sphere ⟨⟨0, 0, 0⟩, 1, ⟨rgb 1 1 1, .Refractive (3/2)⟩⟩)
        ⟨⟨0, 0, 0⟩, ⟨0, 0, 1⟩⟩ =
      reflect ⟨⟨0, 0, 0⟩, 1, ⟨1, 0, 0⟩, true⟩
        (Intersectable.Sphere ⟨⟨0, 0, 0⟩, 1, ⟨rgb 1 1 1, .Refractive (3/2)⟩⟩)
        ⟨⟨0, 0, 0⟩, ⟨0, 0, 1⟩⟩ := by
  have h : 1 < refractEta ⟨⟨0, 0, 0⟩, 1, ⟨1, 0, 0⟩, true⟩
        (Intersectable.Sphere ⟨⟨0, 0, 0⟩, 1, ⟨rgb 1 1 1, .Refractive (3/2)⟩⟩).material *
      refractSinTheta1 Rat.sqrt ⟨⟨0, 0, 0⟩, 1, ⟨1, 0, 0⟩, true⟩ ⟨⟨0, 0, 0⟩, ⟨0, 0, 1⟩⟩ := by
    norm_num [refractEta, refractMaterialIndex, Intersectable.material,
      refractSinTheta1, refractCosTheta1, Vec3D.l2_normalize, Vec3D.length,
      Vec3D.length_squared, Vec3D.normalize, Vec3D.neg_def, dot, Rat.sqrt]
  exact ⟨h,
    (refract_total_internal_reflection Rat.sqrt ⟨⟨0, 0, 0⟩, 1, ⟨1, 0, 0⟩, true⟩
        (Intersectable.Sphere ⟨⟨0, 0, 0⟩, 1, ⟨rgb 1 1 1, .Refractive (3/2)⟩⟩)
        ⟨⟨0, 0, 0⟩, ⟨0, 0, 1⟩⟩).1 h 0⟩

/-- C9 failing schedule: the progress update
`completed_rows.store(completed_rows.load(..) + 1, ..)` is a load followed
by a separate store, not an atomic read-modify-write. In the interleaving
where both of two row tasks load before either stores (each task appearing
exactly twice in the schedule: its load, then its store), one increment is
lost: the counter ends at 1, not 2. A fully sequential schedule of the same
two tasks ends at 2. -/
theorem counter_lost_update :
    (([0, 1, 0, 1] : List (Fin 2)).count 0 = 2 ∧
      ([0, 1, 0, 1] : List (Fin 2)).count 1 = 2) ∧
    (counterRun 2 [0, 1, 0, 1]).counter = 1 ∧
    (counterRun 2 [0, 0, 1, 1]).counter = 2 := by
  refine ⟨⟨?_, ?_⟩, ?_, ?_⟩ <;> rfl

/-- C10: each pixel accumulates exactly `⌊samples_per_pixel⌋` traced
samples, then divides each accumulated channel by the floating-point
`samples_per_pixel` value itself; hence for `⌊spp⌋ ≥ 1` the stored value is
the true per-sample average scaled by `⌊spp⌋ / spp`, and for `spp = 0` the
loop runs zero times and every channel is the degenerate quotient `0 / 0`
(`NaN` in `f64`; rational division by zero in this model). -/
theorem render_pixel_sample_average (sq : ℚ → ℚ) (cam : ℚ → ℚ → Ray)
    (world : List Intersectable) (rr : RenderRand) (rows cols row col : ℕ) (spp : ℚ) :
    (renderPixelEffects rr rows cols row col spp).length = ⌊spp⌋.toNat ∧
    renderPixelColor sq cam world rr rows cols row col spp =
      [pixelSumR sq cam world rr rows cols row col spp / spp,
        pixelSumG sq cam world rr rows cols row col spp / spp,
        pixelSumB sq cam world rr rows cols row col spp / spp] ∧
    (0 < ⌊spp⌋.toNat →
      renderPixelColor sq cam world rr rows cols row col spp =
        [((⌊spp⌋.toNat : ℚ) / spp) *
            (pixelSumR sq cam world rr rows cols row col spp / (⌊spp⌋.toNat : ℚ)),
          ((⌊spp⌋.toNat : ℚ) / spp) *
            (pixelSumG sq cam world rr rows cols row col spp / (⌊spp⌋.toNat : ℚ)),
          ((⌊spp⌋.toNat : ℚ) / spp) *
            (pixelSumB sq cam world rr rows cols row col spp / (⌊spp⌋.toNat : ℚ))]) ∧
    (spp = 0 →
      (renderPixelEffects rr rows cols row col spp).length = 0 ∧
      pixelSumR sq cam world rr rows cols row col spp = 0 ∧
      renderPixelColor sq cam world rr rows cols row col spp = [(0 : ℚ)/0, 0/0, 0/0]) := by
  refine ⟨by simp [renderPixelEffects], rfl, ?_, ?_⟩
  · intro h
    have hfloor : 0 < ⌊spp⌋ := by
      by_contra hc
      push_neg at hc
      rw [Int.toNat_of_nonpos hc] at h
      exact absurd h (lt_irrefl 0)
    have hone : (1 : ℚ) ≤ spp := by
      have := Int.le_floor.mp hfloor
      exact_mod_cast this
    have hspp : spp ≠ 0 := by linarith
    have hn : ((⌊spp⌋.toNat : ℚ)) ≠ 0 := by
      exact_mod_cast Nat.pos_iff_ne_zero.mp h
    have key : ∀ S : ℚ, S / spp = ((⌊spp⌋.toNat : ℚ) / spp) * (S / (⌊spp⌋.toNat : ℚ)) := by
      intro S
      field_simp
      ring
    simp only [renderPixelColor]
    rw [key (pixelSumR sq cam world rr rows cols row col spp),
      key (pixelSumG sq cam world rr rows cols row col spp),
      key (pixelSumB sq cam world rr rows cols row col spp)]
  · intro h
    subst h
    norm_num [renderPixelEffects, renderPixelColor, pixelSumR, pixelSumG, pixelSumB]

/-- C10 witness: at `samples_per_pixel = 3/2` (an empty world, trivial
camera and random source), exactly `⌊3/2⌋ = 1` sample is accumulated and
the stored pixel is the accumulated sums divided by 3/2, i.e. the sample
average scaled by `1 / (3/2) = 2/3`. -/
theorem render_pixel_sample_average_witness :
    0 < ⌊(3/2 : ℚ)⌋.toNat ∧
    renderPixelColor Rat.sqrt (fun _ _ => ⟨⟨0, 0, 0⟩, ⟨0, 0, 1⟩⟩) []
        ⟨fun _ _ _ => 0, fun _ _ _ => 0, fun _ _ _ _ => ⟨0, 0, 0⟩, fun _ _ _ _ => 0⟩
        1 1 0 0 (3/2) =
      [((⌊(3/2 : ℚ)⌋.toNat : ℚ) / (3/2)) *
          (pixelSumR Rat.sqrt (fun _ _ => ⟨⟨0, 0, 0⟩, ⟨0, 0, 1⟩⟩) []
              ⟨fun _ _ _ => 0, fun _ _ _ => 0, fun _ _ _ _ => ⟨0, 0, 0⟩, fun _ _ _ _ => 0⟩
              1 1 0 0 (3/2) / (⌊(3/2 : ℚ)⌋.toNat : ℚ)),
        ((⌊(3/2 : ℚ)⌋.toNat : ℚ) / (3/2)) *
          (pixelSumG Rat.sqrt (fun _ _ => ⟨⟨0, 0, 0⟩, ⟨0, 0, 1⟩⟩) []
              ⟨fun _ _ _ => 0, fun _ _ _ => 0, fun _ _ _ _ => ⟨0, 0, 0⟩, fun _ _ _ _ => 0⟩
              1 1 0 0 (3/2) / (⌊(3/2 : ℚ)⌋.toNat : ℚ)),
        ((⌊(3/2 : ℚ)⌋.toNat : ℚ) / (3/2)) *
          (pixelSumB Rat.sqrt (fun _ _ => ⟨⟨0, 0, 0⟩, ⟨0, 0, 1⟩⟩) []
              ⟨fun _ _ _ => 0, fun _ _ _ => 0, fun _ _ _ _ => ⟨0, 0, 0⟩, fun _ _ _ _ => 0⟩
              1 1 0 0 (3/2) / (⌊(3/2 : ℚ)⌋.toNat : ℚ))] :=
  ⟨by norm_num,
    (render_pixel_sample_average Rat.sqrt (fun _ _ => ⟨⟨0, 0, 0⟩, ⟨0, 0, 1⟩⟩) []
        ⟨fun _ _ _ => 0, fun _ _ _ => 0, fun _ _ _ _ => ⟨0, 0, 0⟩, fun _ _ _ _ => 0⟩
        1 1 0 0 (3/2)).2.2.1 (by norm_num)⟩

/-- Bounds of the jitter formula: for `index < extent` and a uniform draw
`u ∈ [0,1)`, `(index + 0.5 + u) / extent` is strictly positive and strictly
below `1 + 1/(2·extent)` — but not bounded by 1. -/
theorem jitter_frac_pos_lt (index extent : ℕ) (u : ℚ) (hi : index < extent)
    (h0 : 0 ≤ u) (h1 : u < 1) :
    0 < jitter_frac index extent u ∧ jitter_frac index extent u < 1 + 1 / (2 * extent) := by
  have hex : (0 : ℚ) < extent := by
    exact_mod_cast lt_of_le_of_lt (Nat.zero_le index) hi
  have hnn : (0 : ℚ) ≤ index := Nat.cast_nonneg index
  constructor
  · unfold jitter_frac
    apply div_pos
    · linarith
    · exact hex
  · unfold jitter_frac
    rw [div_lt_iff₀ hex]
    have hle : (index : ℚ) + 1 ≤ extent := by exact_mod_cast hi
    have hmul : (1 + 1 / (2 * (extent : ℚ))) * extent = extent + 1/2 := by
      field_simp
      ring
    rw [hmul]
    linarith

/-- C8 (amended): every `prime_ray` call `render` makes passes fractions
produced by the jitter formula `(index + 0.5 + U(0,1)) / extent` over some
row < rows, col < cols and sample; given draws in `[0,1)` these fractions
lie in `(0, 1 + 1/(2·extent))` — they exceed 1 whenever the draw is above
`0.5` at the last index, so they are NOT confined to `[0,1]`. -/
theorem render_prime_ray_fraction_range (sq : ℚ → ℚ) (cam : ℚ → ℚ → Ray)
    (world : List Intersectable) (rr : RenderRand) (rows cols : ℕ) (spp : ℚ)
    (hrj : ∀ r c s, 0 ≤ rr.rowJit r c s ∧ rr.rowJit r c s < 1)
    (hcj : ∀ r c s, 0 ≤ rr.colJit r c s ∧ rr.colJit r c s < 1) :
    ∀ e ∈ (render sq cam world rows cols spp rr).2, ∀ rf cf, e = Effect.primeRay rf cf →
      (∃ row, row < rows ∧ ∃ col, col < cols ∧ ∃ sample,
        rf = jitter_frac row rows (rr.rowJit row col sample) ∧
        cf = jitter_frac col cols (rr.colJit row col sample)) ∧
      0 < rf ∧ rf < 1 + 1 / (2 * rows) ∧ 0 < cf ∧ cf < 1 + 1 / (2 * cols) := by
  intro e he rf cf heq
  subst heq
  rcases List.mem_append.mp he with hmem | hmem
  · rcases List.mem_flatMap.mp hmem with ⟨row, hrow, he2⟩
    rcases List.mem_flatMap.mp he2 with ⟨col, hcol, he3⟩
    rcases List.mem_append.mp he3 with he4 | he4
    · exfalso
      by_cases hc : col = cols - 1
      · rw [if_pos hc] at he4
        exact Effect.noConfusion (List.mem_singleton.mp he4)
      · rw [if_neg hc] at he4
        exact (List.not_mem_nil _) he4
    · rcases List.mem_map.mp he4 with ⟨sample, _, heq2⟩
      have hrow' := List.mem_range.mp hrow
      have hcol' := List.mem_range.mp hcol
      have hrf : jitter_frac row rows (rr.rowJit row col sample) = rf :=
        congrArg (fun x => match x with | Effect.primeRay a _ => a | _ => 0) heq2
      have hcf : jitter_frac col cols (rr.colJit row col sample) = cf :=
        congrArg (fun x => match x with | Effect.primeRay _ b => b | _ => 0) heq2
      refine ⟨⟨row, hrow', col, hcol', sample, hrf.symm, hcf.symm⟩, ?_⟩
      have hb1 := jitter_frac_pos_lt row rows (rr.rowJit row col sample) hrow'
        (hrj row col sample).1 (hrj row col sample).2
      have hb2 := jitter_frac_pos_lt col cols (rr.colJit row col sample) hcol'
        (hcj row col sample).1 (hcj row col sample).2
      rw [hrf] at hb1
      rw [hcf] at hb2
      exact ⟨hb1.1, hb1.2, hb2.1, hb2.2⟩
  · exfalso
    exact Effect.noConfusion (List.mem_singleton.mp hmem)

/-- C8 counterexample: a 1×1 render with one sample and the legitimate
uniform draw `U = 3/5 ∈ [0,1)` calls `prime_ray` with
`row_fraction = col_fraction = (0 + 0.5 + 3/5)/1 = 11/10 > 1`, violating
the claimed range `[0,1]`. -/
theorem render_prime_ray_exceeds_one :
    Effect.primeRay (11/10) (11/10) ∈
      (render Rat.sqrt (fun _ _ => ⟨⟨0, 0, 0⟩, ⟨0, 0, 1⟩⟩) [] 1 1 1
        ⟨fun _ _ _ => 3/5, fun _ _ _ => 3/5, fun _ _ _ _ => ⟨0, 0, 0⟩,
          fun _ _ _ _ => 0⟩).2 ∧
    ¬ (11/10 : ℚ) ≤ 1 ∧ (0 : ℚ) ≤ 3/5 ∧ (3/5 : ℚ) < 1 := by
  refine ⟨?_, by norm_num, by norm_num, by norm_num⟩
  apply List.mem_append_left
  norm_num [renderRowEffects, renderPixelEffects, jitter_frac, List.range_succ]

/-- C7 (amended): `render` itself computes the complete row-major
`rows × cols` frame buffer of 3-channel pixels and itself invokes the PPM
writer on it as its one and only serialization effect; its Rust return type
is `()`, so the buffer is not returned to the caller. (`cols > 0` matches
the Rust domain: `par_chunks_mut(0)` would panic.) -/
theorem render_writes_frame (sq : ℚ → ℚ) (cam : ℚ → ℚ → Ray)
    (world : List Intersectable) (rows cols : ℕ) (spp : ℚ) (rr : RenderRand)
    (hcols : 0 < cols) :
    ∃ img effs,
      render sq cam world rows cols spp rr = ((), effs ++ [Effect.writePPM img rows cols]) ∧
      img.length = rows * cols ∧
      (∀ p ∈ img, p.length = 3) ∧
      ∀ e ∈ effs, e.isWritePPM = false := by
  refine ⟨renderImage sq cam world rr rows cols spp,
    (List.range rows).flatMap fun row => renderRowEffects rr rows cols row spp,
    rfl, ?_, ?_, ?_⟩
  · simp only [renderImage, List.length_flatMap, renderRowPixels]
    have hconst : (List.length ∘ fun row =>
        List.map (fun col => renderPixelColor sq cam world rr rows cols row col spp)
          (List.range cols)) = fun _ : ℕ => cols := by
      funext row
      simp
    rw [hconst, List.map_const', List.sum_replicate, List.length_range, smul_eq_mul]
  · intro p hp
    rcases List.mem_flatMap.mp hp with ⟨row, _, hp2⟩
    rcases List.mem_map.mp hp2 with ⟨col, _, heq⟩
    rw [← heq]
    rfl
  · intro e he
    rcases List.mem_flatMap.mp he with ⟨row, _, he2⟩
    rcases List.mem_flatMap.mp he2 with ⟨col, _, he3⟩
    rcases List.mem_append.mp he3 with he4 | he4
    · by_cases hc : col = cols - 1
      · rw [if_pos hc] at he4
        rw [List.mem_singleton.mp he4]
        rfl
      · rw [if_neg hc] at he4
        exact absurd he4 (List.not_mem_nil _)
    · rcases List.mem_map.mp he4 with ⟨sample, _, heq⟩
      rw [← heq]
      rfl

/-- C7 counterexample: a concrete 1×1 render returns `()` (no frame buffer
flows back to the caller) while its own effect trace contains a `write_ppm`
call — the core performs the image-file serialization itself. -/
theorem render_core_invokes_writer :
    (render Rat.sqrt (fun _ _ => ⟨⟨0, 0, 0⟩, ⟨0, 0, 1⟩⟩) [] 1 1 1
        ⟨fun _ _ _ => 0, fun _ _ _ => 0, fun _ _ _ _ => ⟨0, 0, 0⟩,
          fun _ _ _ _ => 0⟩).1 = () ∧
    ((render Rat.sqrt (fun _ _ => ⟨⟨0, 0, 0⟩, ⟨0, 0, 1⟩⟩) [] 1 1 1
        ⟨fun _ _ _ => 0, fun _ _ _ => 0, fun _ _ _ _ => ⟨0, 0, 0⟩,
          fun _ _ _ _ => 0⟩).2.any Effect.isWritePPM) = true := by
  constructor
  · rfl
  · simp [render, List.any_append, Effect.isWritePPM]

/-- C7 witness: the amended statement instantiated at a 1×1 render. -/
theorem render_writes_frame_witness :
    (0 < 1) ∧
    ∃ img effs,
      render Rat.sqrt (fun _ _ => ⟨⟨0, 0, 0⟩, ⟨0, 0, 1⟩⟩) [] 1 1 1
          ⟨fun _ _ _ => 0, fun _ _ _ => 0, fun _ _ _ _ => ⟨0, 0, 0⟩,
            fun _ _ _ _ => 0⟩ = ((), effs ++ [Effect.writePPM img 1 1]) ∧
      img.length = 1 * 1 ∧
      (∀ p ∈ img, p.length = 3) ∧
      ∀ e ∈ effs, e.isWritePPM = false :=
  ⟨by norm_num,
    render_writes_frame Rat.sqrt (fun _ _ => ⟨⟨0, 0, 0⟩, ⟨0, 0, 1⟩⟩) [] 1 1 1
      ⟨fun _ _ _ => 0, fun _ _ _ => 0, fun _ _ _ _ => ⟨0, 0, 0⟩,
        fun _ _ _ _ => 0⟩ (by norm_num)⟩

/-- C8 witness: the amended fraction-range statement instantiated at a 2×2
render whose uniform draws are all `1/3`. -/
theorem render_prime_ray_fraction_range_witness :
    (∀ r c s : ℕ, 0 ≤ (1/3 : ℚ) ∧ (1/3 : ℚ) < 1) ∧
    ∀ e ∈ (render Rat.sqrt (fun _ _ => ⟨⟨0, 0, 0⟩, ⟨0, 0, 1⟩⟩) [] 2 2 1
        ⟨fun _ _ _ => 1/3, fun _ _ _ => 1/3, fun _ _ _ _ => ⟨0, 0, 0⟩,
          fun _ _ _ _ => 0⟩).2, ∀ rf cf, e = Effect.primeRay rf cf →
      (∃ row, row < 2 ∧ ∃ col, col < 2 ∧ ∃ sample : ℕ,
        rf = jitter_frac row 2 (1/3) ∧ cf = jitter_frac col 2 (1/3)) ∧
      0 < rf ∧ rf < 1 + 1 / (2 * 2) ∧ 0 < cf ∧ cf < 1 + 1 / (2 * 2) :=
  ⟨fun _ _ _ => ⟨by norm_num, by norm_num⟩,
    render_prime_ray_fraction_range Rat.sqrt (fun _ _ => ⟨⟨0, 0, 0⟩, ⟨0, 0, 1⟩⟩) []
      ⟨fun _ _ _ => 1/3, fun _ _ _ => 1/3, fun _ _ _ _ => ⟨0, 0, 0⟩, fun _ _ _ _ => 0⟩
      2 2 1 (fun _ _ _ => ⟨by norm_num, by norm_num⟩)
      (fun _ _ _ => ⟨by norm_num, by norm_num⟩)⟩

/-- The root `(-h - e)/a` of `a·t² + 2h·t + c` when `e² = h² - a·c`. -/
theorem quadratic_root_neg (a h c e : ℚ) (ha : a ≠ 0) (he : e * e = h * h - a * c) :
    a * ((-h - e) / a) ^ 2 + 2 * h * ((-h - e) / a) + c = 0 := by
  field_simp
  ring_nf
  nlinarith [he]

/-- The root `(-h + e)/a` of `a·t² + 2h·t + c` when `e² = h² - a·c`. -/
theorem quadratic_root_pos (a h c e : ℚ) (ha : a ≠ 0) (he : e * e = h * h - a * c) :
    a * ((-h + e) / a) ^ 2 + 2 * h * ((-h + e) / a) + c = 0 := by
  field_simp
  ring_nf
  nlinarith [he]

theorem at_sub_origin (ray : Ray) (t : ℚ) :
    ray.at t - ray.origin = t * ray.direction := by
  simp only [Ray.at, Vec3D.add_def, Vec3D.sub_def, Vec3D.smul_def, Vec3D.mk.injEq]
  refine ⟨by ring, by ring, by ring⟩

theorem length_squared_smul (t : ℚ) (v : Vec3D) :
    (t * v).length_squared = t ^ 2 * v.length_squared := by
  simp only [Vec3D.smul_def, Vec3D.length_squared]
  ring

theorem length_squared_at_sub (s : Sphere) (ray : Ray) (t : ℚ) :
    Vec3D.length_squared (ray.at t - s.origin) =
      sphereA s ray * t ^ 2 + 2 * sphereH s ray * t +
        (sphereC s ray + s.radius * s.radius) := by
  simp only [Ray.at, sphereA, sphereH, sphereC, dot, Vec3D.length_squared,
    Vec3D.add_def, Vec3D.sub_def, Vec3D.smul_def]
  ring

theorem dot_neg_left (v w : Vec3D) : dot (-v) w = -(dot v w) := by
  simp only [dot, Vec3D.neg_def]
  ring

theorem dot_normalize (d v : Vec3D) (n : ℚ) :
    dot d (Vec3D.normalize v n) = dot d v / n := by
  simp only [dot, Vec3D.normalize]
  ring

theorem sphereA_pos (s : Sphere) (ray : Ray) (hdir : ray.direction ≠ ⟨0, 0, 0⟩) :
    0 < sphereA s ray := by
  unfold sphereA
  exact dot_self_pos ray.direction hdir

/-- C3: `Sphere::intersects` returns `None` exactly when the discriminant
is negative or both quadratic roots fall below the 0.01 epsilon; when it
returns `Some(I)`, the hit point is the ray evaluated at the chosen
parameter `t`, which is one of the two roots, is `≥ 0.01`, and is the
smaller root whenever that root is itself valid (the roots being ordered
`t0 ≤ t1`); and the hit point lies exactly on the sphere surface
(`|I.point - S.origin|² = S.radius²`). -/
theorem sphere_intersects_characterization (sq : ℚ → ℚ) (s : Sphere) (ray : Ray)
    (hdir : ray.direction ≠ ⟨0, 0, 0⟩)
    (hsq : 0 ≤ sphereDisc s ray →
      sq (sphereDisc s ray) * sq (sphereDisc s ray) = sphereDisc s ray ∧
        0 ≤ sq (sphereDisc s ray)) :
    (Sphere.intersects sq s ray = none ↔
      sphereDisc s ray < 0 ∨
        (sphereT0 sq s ray < 1/100 ∧ sphereT1 sq s ray < 1/100)) ∧
    ∀ i, Sphere.intersects sq s ray = some i →
      i.point = ray.at (sphereHitT sq s ray) ∧
      1/100 ≤ sphereHitT sq s ray ∧
      (sphereHitT sq s ray = sphereT0 sq s ray ∨
        sphereHitT sq s ray = sphereT1 sq s ray) ∧
      sphereT0 sq s ray ≤ sphereT1 sq s ray ∧
      (1/100 ≤ sphereT0 sq s ray → sphereHitT sq s ray = sphereT0 sq s ray) ∧
      Vec3D.length_squared (i.point - s.origin) = s.radius * s.radius := by
  have hA := sphereA_pos s ray hdir
  constructor
  · unfold Sphere.intersects
    by_cases h1 : sphereDisc s ray < 0
    · simp [h1]
    · by_cases h2 : sphereT0 sq s ray < 1/100 ∧ sphereT1 sq s ray < 1/100
      · simp [h1, h2]
      · simp [h1, h2]
  · intro i hi
    unfold Sphere.intersects at hi
    by_cases h1 : sphereDisc s ray < 0
    · rw [if_pos h1] at hi
      exact absurd hi (by simp)
    · rw [if_neg h1] at hi
      by_cases h2 : sphereT0 sq s ray < 1/100 ∧ sphereT1 sq s ray < 1/100
      · rw [if_pos h2] at hi
        exact absurd hi (by simp)
      · rw [if_neg h2] at hi
        have hd0 : 0 ≤ sphereDisc s ray := not_lt.mp h1
        obtain ⟨he, hge⟩ := hsq hd0
        have hi' := Option.some.inj hi
        subst hi'
        have hvalid : 1/100 ≤ sphereHitT sq s ray := by
          unfold sphereHitT
          by_cases h3 : 1/100 ≤ sphereT0 sq s ray
          · rw [if_pos h3]
            exact h3
          · rw [if_neg h3]
            rcases not_and_or.mp h2 with h4 | h4
            · exact absurd (not_le.mp h3) h4
            · exact not_lt.mp h4
        have hor : sphereHitT sq s ray = sphereT0 sq s ray ∨
            sphereHitT sq s ray = sphereT1 sq s ray := by
          unfold sphereHitT
          by_cases h3 : 1/100 ≤ sphereT0 sq s ray
          · rw [if_pos h3]
            exact Or.inl rfl
          · rw [if_neg h3]
            exact Or.inr rfl
        have he' : sq (sphereDisc s ray) * sq (sphereDisc s ray) =
            sphereH s ray * sphereH s ray - sphereA s ray * sphereC s ray := by
          rw [he]
          unfold sphereDisc
          ring
        have hroot : sphereA s ray * sphereHitT sq s ray ^ 2 +
            2 * sphereH s ray * sphereHitT sq s ray + sphereC s ray = 0 := by
          rcases hor with h3 | h3
          · rw [h3]
            unfold sphereT0
            exact quadratic_root_neg _ _ _ _ (ne_of_gt hA) he'
          · rw [h3]
            unfold sphereT1
            exact quadratic_root_pos _ _ _ _ (ne_of_gt hA) he'
        refine ⟨rfl, hvalid, hor, ?_, ?_, ?_⟩
        · unfold sphereT0 sphereT1
          have hnum : -sphereH s ray - sq (sphereDisc s ray) ≤
              -sphereH s ray + sq (sphereDisc s ray) := by linarith
          exact div_le_div_of_le_of_nonneg hnum (le_of_lt hA)
        · intro h3
          unfold sphereHitT
          rw [if_pos h3]
        · rw [length_squared_at_sub]
          linarith

/-- C3 witness: the unit sphere at the origin hit by the ray from
`(0,0,-3)` along `(0,0,1)`: nonzero direction, discriminant 1 (whose
rational square root is exact), and the returned hit point lies on the
sphere surface. -/
theorem sphere_intersects_characterization_witness :
    ((⟨0, 0, 1⟩ : Vec3D) ≠ ⟨0, 0, 0⟩) ∧
    ∃ i, Sphere.intersects Rat.sqrt ⟨⟨0, 0, 0⟩, 1, ⟨rgb 1 1 1, .Diffuse⟩⟩
        ⟨⟨0, 0, -3⟩, ⟨0, 0, 1⟩⟩ = some i ∧
      Vec3D.length_squared (i.point - (⟨0, 0, 0⟩ : Vec3D)) = 1 * 1 := by
  have hdir : (⟨0, 0, 1⟩ : Vec3D) ≠ ⟨0, 0, 0⟩ := by
    norm_num [Vec3D.mk.injEq]
  have hs : Sphere.intersects Rat.sqrt ⟨⟨0, 0, 0⟩, 1, ⟨rgb 1 1 1, .Diffuse⟩⟩
      ⟨⟨0, 0, -3⟩, ⟨0, 0, 1⟩⟩ = some ⟨⟨0, 0, -1⟩, 2, ⟨0, 0, -1⟩, false⟩ := by
    norm_num [Sphere.intersects, sphereHitT, sphereT0, sphereT1, sphereDisc,
      sphereA, sphereH, sphereC, dot, Ray.at, Sphere.surface_normal,
      Vec3D.l2_normalize, Vec3D.normalize, Vec3D.length, Vec3D.length_squared,
      Vec3D.sub_def, Vec3D.add_def, Vec3D.smul_def, Vec3D.neg_def, Rat.sqrt]
  have hchar := (sphere_intersects_characterization Rat.sqrt
      ⟨⟨0, 0, 0⟩, 1, ⟨rgb 1 1 1, .Diffuse⟩⟩ ⟨⟨0, 0, -3⟩, ⟨0, 0, 1⟩⟩ hdir
      (by
        intro _
        norm_num [sphereDisc, sphereA, sphereH, sphereC, dot,
          Vec3D.sub_def, Rat.sqrt])).2 _ hs
  exact ⟨hdir, _, hs, hchar.2.2.2.2.2⟩

/-- C4: for every returned intersection, the stored `local_normal` opposes
the incoming ray direction (`local_normal · direction ≤ 0`), and `inside`
is true exactly when the geometric outward surface normal — equivalently,
when its positively-scaled representative `point - center` — has positive
dot product with the ray direction. -/
theorem sphere_normal_faces_ray (sq : ℚ → ℚ) (s : Sphere) (ray : Ray) :
    (∀ i, Sphere.intersects sq s ray = some i →
      dot i.local_normal ray.direction ≤ 0) ∧
    (∀ i, Sphere.intersects sq s ray = some i →
      (i.inside = true ↔
        0 < dot ray.direction (Sphere.surface_normal sq s i.point)) ∧
      (0 < sq (Vec3D.length_squared (i.point - s.origin)) →
        (i.inside = true ↔ 0 < dot ray.direction (i.point - s.origin)))) := by
  have main : ∀ i, Sphere.intersects sq s ray = some i →
      i.local_normal = (if i.inside then -(Sphere.surface_normal sq s i.point)
        else Sphere.surface_normal sq s i.point) ∧
      (i.inside = true ↔
        0 < dot ray.direction (Sphere.surface_normal sq s i.point)) := by
    intro i hi
    unfold Sphere.intersects at hi
    by_cases h1 : sphereDisc s ray < 0
    · rw [if_pos h1] at hi
      exact absurd hi (by simp)
    · rw [if_neg h1] at hi
      by_cases h2 : sphereT0 sq s ray < 1/100 ∧ sphereT1 sq s ray < 1/100
      · rw [if_pos h2] at hi
        exact absurd hi (by simp)
      · rw [if_neg h2] at hi
        have hi' := Option.some.inj hi
        subst hi'
        by_cases hd : 0 < dot ray.direction
            (Sphere.surface_normal sq s (ray.at (sphereHitT sq s ray)))
        · simp [hd]
        · simp [hd]
  constructor
  · intro i hi
    obtain ⟨hln, hins⟩ := main i hi
    by_cases hd : i.inside
    · have h0 := hins.mp hd
      rw [hln, if_pos hd, dot_neg_left]
      have hc : dot (Sphere.surface_normal sq s i.point) ray.direction =
          dot ray.direction (Sphere.surface_normal sq s i.point) := dot_comm _ _
      linarith
    · have h0 : ¬ 0 < dot ray.direction (Sphere.surface_normal sq s i.point) :=
        fun hc => hd (hins.mpr hc)
      rw [hln, if_neg hd]
      have hc : dot (Sphere.surface_normal sq s i.point) ray.direction =
          dot ray.direction (Sphere.surface_normal sq s i.point) := dot_comm _ _
      have := not_lt.mp h0
      linarith
  · intro i hi
    obtain ⟨hln, hins⟩ := main i hi
    refine ⟨hins, ?_⟩
    intro hpos
    rw [hins]
    unfold Sphere.surface_normal Vec3D.l2_normalize Vec3D.length
    rw [dot_normalize]
    constructor
    · intro h
      rcases div_pos_iff.mp h with ⟨ha, _⟩ | ⟨_, hb⟩
      · exact ha
      · exact absurd hpos (not_lt.mpr (le_of_lt hb))
    · intro h
      exact div_pos h hpos

/-- C4 witness: a ray starting at the center of the unit sphere (so the
hit is from inside): the stored normal `(0,0,-1)` opposes the direction
`(0,0,1)` and `inside` is true, matching the positive dot product of the
direction with the outward vector `point - center = (0,0,1)`. -/
theorem sphere_normal_faces_ray_witness :
    Sphere.intersects Rat.sqrt ⟨⟨0, 0, 0⟩, 1, ⟨rgb 1 1 1, .Diffuse⟩⟩
        ⟨⟨0, 0, 0⟩, ⟨0, 0, 1⟩⟩ = some ⟨⟨0, 0, 1⟩, 1, ⟨0, 0, -1⟩, true⟩ ∧
    dot (Intersection.local_normal ⟨⟨0, 0, 1⟩, 1, ⟨0, 0, -1⟩, true⟩)
        (⟨0, 0, 1⟩ : Vec3D) ≤ 0 ∧
    ((Intersection.inside ⟨⟨0, 0, 1⟩, 1, ⟨0, 0, -1⟩, true⟩) = true ↔
      0 < dot (⟨0, 0, 1⟩ : Vec3D)
        ((⟨0, 0, 1⟩ : Vec3D) - (⟨0, 0, 0⟩ : Vec3D))) := by
  have hs : Sphere.intersects Rat.sqrt ⟨⟨0, 0, 0⟩, 1, ⟨rgb 1 1 1, .Diffuse⟩⟩
      ⟨⟨0, 0, 0⟩, ⟨0, 0, 1⟩⟩ = some ⟨⟨0, 0, 1⟩, 1, ⟨0, 0, -1⟩, true⟩ := by
    norm_num [Sphere.intersects, sphereHitT, sphereT0, sphereT1, sphereDisc,
      sphereA, sphereH, sphereC, dot, Ray.at, Sphere.surface_normal,
      Vec3D.l2_normalize, Vec3D.normalize, Vec3D.length, Vec3D.length_squared,
      Vec3D.sub_def, Vec3D.add_def, Vec3D.smul_def, Vec3D.neg_def, Rat.sqrt]
  refine ⟨hs, ?_, ?_⟩
  · exact (sphere_normal_faces_ray Rat.sqrt ⟨⟨0, 0, 0⟩, 1, ⟨rgb 1 1 1, .Diffuse⟩⟩
      ⟨⟨0, 0, 0⟩, ⟨0, 0, 1⟩⟩).1 _ hs
  · exact ((sphere_normal_faces_ray Rat.sqrt ⟨⟨0, 0, 0⟩, 1, ⟨rgb 1 1 1, .Diffuse⟩⟩
      ⟨⟨0, 0, 0⟩, ⟨0, 0, 1⟩⟩).2 _ hs).2
      (by norm_num [Vec3D.length_squared, Vec3D.sub_def, Rat.sqrt])

/-- C6 (amended): the 0.01 epsilon bounds the ray parameter `t` of the hit;
the stored `distance` is the Euclidean distance `t·|direction|`, so what is
guaranteed is `distance² = t²·|direction|² ≥ 0.01²·|direction|²` (and
`distance ≥ 0`), not `distance ≥ 0.01` itself. -/
theorem sphere_distance_epsilon_scaled (sq : ℚ → ℚ) (s : Sphere) (ray : Ray)
    (hdir : ray.direction ≠ ⟨0, 0, 0⟩)
    (hsq2 : sq (Vec3D.length_squared (ray.at (sphereHitT sq s ray) - ray.origin)) *
          sq (Vec3D.length_squared (ray.at (sphereHitT sq s ray) - ray.origin)) =
        Vec3D.length_squared (ray.at (sphereHitT sq s ray) - ray.origin) ∧
      0 ≤ sq (Vec3D.length_squared (ray.at (sphereHitT sq s ray) - ray.origin))) :
    ∀ i, Sphere.intersects sq s ray = some i →
      1/100 ≤ sphereHitT sq s ray ∧
      i.distance * i.distance = sphereHitT sq s ray ^ 2 * sphereA s ray ∧
      (1/100) ^ 2 * sphereA s ray ≤ i.distance * i.distance ∧
      0 ≤ i.distance := by
  intro i hi
  unfold Sphere.intersects at hi
  by_cases h1 : sphereDisc s ray < 0
  · rw [if_pos h1] at hi
    exact absurd hi (by simp)
  · rw [if_neg h1] at hi
    by_cases h2 : sphereT0 sq s ray < 1/100 ∧ sphereT1 sq s ray < 1/100
    · rw [if_pos h2] at hi
      exact absurd hi (by simp)
    · rw [if_neg h2] at hi
      have hi' := Option.some.inj hi
      subst hi'
      have hvalid : 1/100 ≤ sphereHitT sq s ray := by
        unfold sphereHitT
        by_cases h3 : 1/100 ≤ sphereT0 sq s ray
        · rw [if_pos h3]
          exact h3
        · rw [if_neg h3]
          rcases not_and_or.mp h2 with h4 | h4
          · exact absurd (not_le.mp h3) h4
          · exact not_lt.mp h4
      have hdd : Vec3D.length sq (ray.at (sphereHitT sq s ray) - ray.origin) *
          Vec3D.length sq (ray.at (sphereHitT sq s ray) - ray.origin) =
            sphereHitT sq s ray ^ 2 * sphereA s ray := by
        unfold Vec3D.length
        rw [hsq2.1, at_sub_origin, length_squared_smul]
        unfold sphereA
        rw [dot_self_eq_length_squared]
      refine ⟨hvalid, hdd, ?_, hsq2.2⟩
      rw [hdd]
      have hsqr : (1/100 : ℚ) ^ 2 ≤ sphereHitT sq s ray ^ 2 :=
        pow_le_pow_left (by norm_num) hvalid 2
      exact mul_le_mul_of_nonneg_right hsqr (dot_self_nonneg ray.direction)

/-- C6 counterexample: the unit sphere at the origin, ray origin
`(0,0,-501/500)`, direction `(0,0,1/10)`: the hit parameter is
`t = 1/50 ≥ 0.01`, but the stored Euclidean distance is
`t·|direction| = 1/500 = 0.002 < 0.01`. -/
theorem sphere_distance_below_epsilon :
    Sphere.intersects Rat.sqrt ⟨⟨0, 0, 0⟩, 1, ⟨rgb 1 1 1, .Diffuse⟩⟩
        ⟨⟨0, 0, -501/500⟩, ⟨0, 0, 1/10⟩⟩ =
      some ⟨⟨0, 0, -1⟩, 1/500, ⟨0, 0, -1⟩, false⟩ ∧
    (1/500 : ℚ) < 1/100 := by
  constructor
  · norm_num [Sphere.intersects, sphereHitT, sphereT0, sphereT1, sphereDisc,
      sphereA, sphereH, sphereC, dot, Ray.at, Sphere.surface_normal,
      Vec3D.l2_normalize, Vec3D.normalize, Vec3D.length, Vec3D.length_squared,
      Vec3D.sub_def, Vec3D.add_def, Vec3D.smul_def, Vec3D.neg_def, Rat.sqrt]
  · norm_num

/-- C6 witness: the amended scaled-epsilon bound instantiated at the unit
sphere hit from `(0,0,-3)` along `(0,0,1)` (hit parameter 2, distance 2,
`|direction|² = 1`). -/
theorem sphere_distance_epsilon_scaled_witness :
    ∃ i, Sphere.intersects Rat.sqrt ⟨⟨0, 0, 0⟩, 1, ⟨rgb 1 1 1, .Diffuse⟩⟩
        ⟨⟨0, 0, -3⟩, ⟨0, 0, 1⟩⟩ = some i ∧
      (1/100 : ℚ) ^ 2 *
          sphereA ⟨⟨0, 0, 0⟩, 1, ⟨rgb 1 1 1, .Diffuse⟩⟩ ⟨⟨0, 0, -3⟩, ⟨0, 0, 1⟩⟩ ≤
        i.distance * i.distance ∧
      0 ≤ i.distance := by
  have hs : Sphere.intersects Rat.sqrt ⟨⟨0, 0, 0⟩, 1, ⟨rgb 1 1 1, .Diffuse⟩⟩
      ⟨⟨0, 0, -3⟩, ⟨0, 0, 1⟩⟩ = some ⟨⟨0, 0, -1⟩, 2, ⟨0, 0, -1⟩, false⟩ := by
    norm_num [Sphere.intersects, sphereHitT, sphereT0, sphereT1, sphereDisc,
      sphereA, sphereH, sphereC, dot, Ray.at, Sphere.surface_normal,
      Vec3D.l2_normalize, Vec3D.normalize, Vec3D.length, Vec3D.length_squared,
      Vec3D.sub_def, Vec3D.add_def, Vec3D.smul_def, Vec3D.neg_def, Rat.sqrt]
  have hco := sphere_distance_epsilon_scaled Rat.sqrt
    ⟨⟨0, 0, 0⟩, 1, ⟨rgb 1 1 1, .Diffuse⟩⟩ ⟨⟨0, 0, -3⟩, ⟨0, 0, 1⟩⟩
    (by norm_num [Vec3D.mk.injEq])
    (by
      norm_num [sphereHitT, sphereT0, sphereT1, sphereDisc, sphereA, sphereH,
        sphereC, dot, Ray.at, Vec3D.length_squared, Vec3D.sub_def,
        Vec3D.add_def, Vec3D.smul_def, Rat.sqrt])
    _ hs
  exact ⟨_, hs, hco.2.2.1, hco.2.2.2⟩

/-- Loop invariant of `first_intersection`: running the loop over
corresponding lists either leaves the state untouched (no candidate beats
the incoming `closest_distance`) or ends on the first candidate achieving
the minimum distance among those beating it — strictly closer than every
earlier `Some`, at least as close as every later one. -/
theorem fiLoop_spec (os : List (Option Intersection)) : ∀ (xs : List Intersectable)
    (st : FIState), os.length = xs.length →
    (fiLoop os xs st = some st ∧
      ∀ p ∈ os.zip xs, ∀ j, p.1 = some j →
        st.closest_distance ≤ (j.distance : WithTop ℚ)) ∨
    (∃ pre i x suf, os.zip xs = pre ++ (some i, x) :: suf ∧
      (i.distance : WithTop ℚ) < st.closest_distance ∧
      fiLoop os xs st = some ⟨(i.distance : WithTop ℚ), x, some i⟩ ∧
      (∀ p ∈ pre, ∀ j, p.1 = some j → i.distance < j.distance) ∧
      (∀ p ∈ suf, ∀ j, p.1 = some j → i.distance ≤ j.distance)) := by
  induction os with
  | nil =>
    intro xs st hlen
    have hxs : xs = [] := List.length_eq_zero.mp hlen.symm
    subst hxs
    left
    exact ⟨rfl, by simp⟩
  | cons o os ih =>
    intro xs st hlen
    cases xs with
    | nil => simp at hlen
    | cons x xs =>
      have hlen' : os.length = xs.length := by simpa using hlen
      cases o with
      | none =>
        have hstep : fiStep st none x = st := rfl
        rcases ih xs st hlen' with ⟨hrun, hbound⟩ |
            ⟨pre, i, x', suf, hzip, hlt, hrun, hpre, hsuf⟩
        · left
          refine ⟨?_, ?_⟩
          · show fiLoop os xs (fiStep st none x) = some st
            rw [hstep]
            exact hrun
          · intro p hp j hj
            rw [List.zip_cons_cons] at hp
            rcases List.mem_cons.mp hp with h | h
            · rw [h] at hj
              exact absurd hj (by simp)
            · exact hbound p h j hj
        · right
          refine ⟨(none, x) :: pre, i, x', suf, ?_, hlt, ?_, ?_, hsuf⟩
          · rw [List.zip_cons_cons, hzip]
            rfl
          · show fiLoop os xs (fiStep st none x) =
              some ⟨(i.distance : WithTop ℚ), x', some i⟩
            rw [hstep]
            exact hrun
          · intro p hp j hj
            rcases List.mem_cons.mp hp with h | h
            · rw [h] at hj
              exact absurd hj (by simp)
            · exact hpre p h j hj
      | some i0 =>
        by_cases hlt0 : (i0.distance : WithTop ℚ) < st.closest_distance
        · have hstep : fiStep st (some i0) x =
              ⟨(i0.distance : WithTop ℚ), x, some i0⟩ := by
            simp [fiStep, hlt0]
          rcases ih xs ⟨(i0.distance : WithTop ℚ), x, some i0⟩ hlen' with
              ⟨hrun, hbound⟩ | ⟨pre, i, x', suf, hzip, hlt, hrun, hpre, hsuf⟩
          · right
            refine ⟨[], i0, x, os.zip xs, ?_, hlt0, ?_, ?_, ?_⟩
            · rw [List.zip_cons_cons]
              rfl
            · show fiLoop os xs (fiStep st (some i0) x) =
                some ⟨(i0.distance : WithTop ℚ), x, some i0⟩
              rw [hstep]
              exact hrun
            · intro p hp
              exact absurd hp (List.not_mem_nil p)
            · intro p hp j hj
              have := hbound p hp j hj
              exact WithTop.coe_le_coe.mp this
          · right
            refine ⟨(some i0, x) :: pre, i, x', suf, ?_, ?_, ?_, ?_, hsuf⟩
            · rw [List.zip_cons_cons, hzip]
              rfl
            · exact lt_trans hlt hlt0
            · show fiLoop os xs (fiStep st (some i0) x) =
                some ⟨(i.distance : WithTop ℚ), x', some i⟩
              rw [hstep]
              exact hrun
            · intro p hp j hj
              rcases List.mem_cons.mp hp with h | h
              · rw [h] at hj
                have hj' : i0 = j := Option.some.inj hj
                subst hj'
                exact WithTop.coe_lt_coe.mp hlt
              · exact hpre p h j hj
        · have hstep : fiStep st (some i0) x = st := by
            simp [fiStep, hlt0]
          rcases ih xs st hlen' with ⟨hrun, hbound⟩ |
              ⟨pre, i, x', suf, hzip, hlt, hrun, hpre, hsuf⟩
          · left
            refine ⟨?_, ?_⟩
            · show fiLoop os xs (fiStep st (some i0) x) = some st
              rw [hstep]
              exact hrun
            · intro p hp j hj
              rw [List.zip_cons_cons] at hp
              rcases List.mem_cons.mp hp with h | h
              · rw [h] at hj
                have hj' : i0 = j := Option.some.inj hj
                subst hj'
                exact not_lt.mp hlt0
              · exact hbound p h j hj
          · right
            refine ⟨(some i0, x) :: pre, i, x', suf, ?_, hlt, ?_, ?_, hsuf⟩
            · rw [List.zip_cons_cons, hzip]
              rfl
            · show fiLoop os xs (fiStep st (some i0) x) =
                some ⟨(i.distance : WithTop ℚ), x', some i⟩
              rw [hstep]
              exact hrun
            · intro p hp j hj
              rcases List.mem_cons.mp hp with h | h
              · rw [h] at hj
                have hj' : i0 = j := Option.some.inj hj
                subst hj'
                exact WithTop.coe_lt_coe.mp (lt_of_lt_of_le hlt (not_lt.mp hlt0))
              · exact hpre p h j hj

/-- C2 (amended: for NONEMPTY corresponding lists — on empty input the
Rust function panics by indexing element 0 unconditionally):
`first_intersection` returns (without panicking) `None` exactly when every
per-primitive result is `None`, and otherwise the `Some` intersection of
globally minimum distance, ties broken in favor of the first-seen
primitive: strictly closer than every earlier valid hit, at least as close
as every later one. -/
theorem first_intersection_nearest (intersections : List (Option Intersection))
    (intersectables : List Intersectable)
    (hne : intersectables ≠ [])
    (hlen : intersections.length = intersectables.length) :
    ∃ r, first_intersection intersections intersectables = some r ∧
      ((r = none ∧ ∀ o ∈ intersections, o = none) ∨
        (∃ pre i x suf,
          intersections.zip intersectables = pre ++ (some i, x) :: suf ∧
          r = some (i, x) ∧
          (¬ ∀ o ∈ intersections, o = none) ∧
          (∀ p ∈ pre, ∀ j, p.1 = some j → i.distance < j.distance) ∧
          (∀ p ∈ suf, ∀ j, p.1 = some j → i.distance ≤ j.distance))) := by
  cases intersectables with
  | nil => exact absurd rfl hne
  | cons x0 xs =>
    cases intersections with
    | nil => simp at hlen
    | cons o0 os =>
      have hmap : ((o0 :: os).zip (x0 :: xs)).map Prod.fst = o0 :: os :=
        List.map_fst_zip _ _ (le_of_eq hlen)
      rcases fiLoop_spec (o0 :: os) (x0 :: xs) ⟨⊤, x0, o0⟩ hlen with
          ⟨hrun, hbound⟩ | ⟨pre, i, x, suf, hzip, _, hrun, hpre, hsuf⟩
      · refine ⟨none, ?_, Or.inl ⟨rfl, ?_⟩⟩
        · simp only [first_intersection]
          rw [hrun]
          simp
        · intro o ho
          cases o with
          | none => rfl
          | some j =>
            exfalso
            rw [← hmap] at ho
            rcases List.mem_map.mp ho with ⟨p, hp, hp1⟩
            have := hbound p hp j hp1
            exact absurd this (not_le.mpr (WithTop.coe_lt_top j.distance))
      · refine ⟨some (i, x), ?_, Or.inr ⟨pre, i, x, suf, hzip, rfl, ?_, hpre, hsuf⟩⟩
        · simp only [first_intersection]
          rw [hrun]
          simp
        · intro hall
          have hmem : (some i, x) ∈ (o0 :: os).zip (x0 :: xs) := by
            rw [hzip]
            exact List.mem_append_right _ (List.mem_cons_self _ _)
          have : some i ∈ o0 :: os := by
            rw [← hmap]
            exact List.mem_map_of_mem Prod.fst hmem
          exact Option.noConfusion (hall (some i) this)

/-- C2 counterexample: on the empty pair of corresponding lists the claim
demands the answer `None`, but the Rust function never returns: it panics
on the unconditional `intersectables[0]` / `intersections[0]` indexing
(panic is the outer `none` of this embedding; a returned Rust `None` would
be `some none`). -/
theorem first_intersection_empty_panics :
    first_intersection [] [] = none := rfl

/-- C2 witness: three primitives where the first result is a miss and the
third hit (distance 3) is closer than the second (distance 5): the nearest
hit is returned with the third primitive. -/
theorem first_intersection_nearest_witness :
    (([Intersectable.Sphere ⟨⟨0, 0, 0⟩, 1, ⟨rgb 1 1 1, .Diffuse⟩⟩,
        Intersectable.Sphere ⟨⟨0, 0, 0⟩, 2, ⟨rgb 1 1 1, .Diffuse⟩⟩,
        Intersectable.Sphere ⟨⟨0, 0, 0⟩, 3, ⟨rgb 1 1 1, .Diffuse⟩⟩] :
          List Intersectable) ≠ []) ∧
    ∃ r, first_intersection
        [none, some ⟨⟨0, 0, 5⟩, 5, ⟨0, 0, 1⟩, false⟩,
          some ⟨⟨0, 0, 3⟩, 3, ⟨0, 0, 1⟩, false⟩]
        [Intersectable.Sphere ⟨⟨0, 0, 0⟩, 1, ⟨rgb 1 1 1, .Diffuse⟩⟩,
          Intersectable.Sphere ⟨⟨0, 0, 0⟩, 2, ⟨rgb 1 1 1, .Diffuse⟩⟩,
          Intersectable.Sphere ⟨⟨0, 0, 0⟩, 3, ⟨rgb 1 1 1, .Diffuse⟩⟩] = some r ∧
      ((r = none ∧ ∀ o ∈ [none, some (⟨⟨0, 0, 5⟩, 5, ⟨0, 0, 1⟩, false⟩ : Intersection),
          some ⟨⟨0, 0, 3⟩, 3, ⟨0, 0, 1⟩, false⟩], o = none) ∨
        (∃ pre i x suf,
          ([none, some (⟨⟨0, 0, 5⟩, 5, ⟨0, 0, 1⟩, false⟩ : Intersection),
              some ⟨⟨0, 0, 3⟩, 3, ⟨0, 0, 1⟩, false⟩].zip
            [Intersectable.Sphere ⟨⟨0, 0, 0⟩, 1, ⟨rgb 1 1 1, .Diffuse⟩⟩,
              Intersectable.Sphere ⟨⟨0, 0, 0⟩, 2, ⟨rgb 1 1 1, .Diffuse⟩⟩,
              Intersectable.Sphere ⟨⟨0, 0, 0⟩, 3, ⟨rgb 1 1 1, .Diffuse⟩⟩]) =
            pre ++ (some i, x) :: suf ∧
          r = some (i, x) ∧
          (¬ ∀ o ∈ [none, some (⟨⟨0, 0, 5⟩, 5, ⟨0, 0, 1⟩, false⟩ : Intersection),
              some ⟨⟨0, 0, 3⟩, 3, ⟨0, 0, 1⟩, false⟩], o = none) ∧
          (∀ p ∈ pre, ∀ j, p.1 = some j → i.distance < j.distance) ∧
          (∀ p ∈ suf, ∀ j, p.1 = some j → i.distance ≤ j.distance))) :=
  ⟨by simp,
    first_intersection_nearest
      [none, some ⟨⟨0, 0, 5⟩, 5, ⟨0, 0, 1⟩, false⟩,
        some ⟨⟨0, 0, 3⟩, 3, ⟨0, 0, 1⟩, false⟩]
      [Intersectable.Sphere ⟨⟨0, 0, 0⟩, 1, ⟨rgb 1 1 1, .Diffuse⟩⟩,
        Intersectable.Sphere ⟨⟨0, 0, 0⟩, 2, ⟨rgb 1 1 1, .Diffuse⟩⟩,
        Intersectable.Sphere ⟨⟨0, 0, 0⟩, 3, ⟨rgb 1 1 1, .Diffuse⟩⟩]
      (by simp) (by simp)⟩

end RayTracer
